import Mathlib

/-!
# Verification of the MediaBoard backend monitoring subsystem

A shallow embedding, in Lean 4, of the in-process monitoring aggregator of the
MediaBoard backend (`src/services/monitoringService.js`, the monitoring
middleware `src/middleware/monitoring.js`, and the monitoring routes in
`src/routes/player.js` / `src/routes/dashboard.js`), together with theorems
about the embedded definitions.

Conventions used throughout:
* JavaScript `Map` objects are modelled as association lists whose `set`
  operation updates an existing key in place and appends new keys at the end,
  matching insertion-order iteration of `Map`.
* Timestamps, status codes and latencies are modelled as `Int`; percentages
  and rates as `ℚ`.
* Strings processed character-by-character (endpoint paths) are modelled as
  lists of character codes (`List Nat`), with `codes` converting a literal.
* `Array.prototype.sort` with a numeric comparator is modelled as a stable
  insertion sort by the comparator key, matching the ECMAScript requirement
  that `sort` be stable.
-/

namespace MediaBoard

/-! ## Health status values

`performHealthCheck` components report `'healthy' | 'warning' | 'critical' |
'error'`; the middleware catch handler additionally produces `'error'` as an
overall value. -/

inductive HealthStatus where
  | healthy
  | warning
  | critical
  | error
deriving DecidableEq, Repr

/-- Alert severities produced by the monitoring code
(`performHealthCheck` and `generatePerformanceAlerts`):
`'critical' | 'warning' | 'info'`. -/
inductive AlertSeverity where
  | critical
  | warning
  | info
deriving DecidableEq, Repr

/-- An alert object `{component, severity, message}`. -/
structure Alert where
  component : String
  severity : AlertSeverity
  message : String
deriving DecidableEq, Repr

/-- The outcome of one named component health check: the component name, the
`status` field of the result (a thrown check is converted by the `catch`
branch into a result with status `'error'`), and its message. -/
structure CheckOutcome where
  name : String
  status : HealthStatus
  message : String
deriving DecidableEq, Repr

/-- Accumulator of the `performHealthCheck` loop: the running `overall`
status and the `alerts` list. -/
structure HealthAgg where
  overall : HealthStatus
  alerts : List Alert
deriving DecidableEq, Repr

/-- One iteration of the `for (const [name, checkFunction] of this.healthChecks)`
loop in `performHealthCheck` (monitoringService.js:290-324): a `critical` or
`error` result forces `overall = 'critical'` and appends a critical alert; a
`warning` result upgrades `overall` only from `'healthy'` and appends a
warning alert. -/
def healthStep (acc : HealthAgg) (c : CheckOutcome) : HealthAgg :=
  if c.status = .critical ∨ c.status = .error then
    { overall := .critical,
      alerts := acc.alerts ++ [⟨c.name, .critical, c.message⟩] }
  else if c.status = .warning ∧ acc.overall = .healthy then
    { overall := .warning,
      alerts := acc.alerts ++ [⟨c.name, .warning, c.message⟩] }
  else acc

/-- The aggregation performed by `performHealthCheck` over the list of
component check outcomes, starting from `overall = 'healthy'` and no
alerts. -/
def performHealthCheckAgg (checks : List CheckOutcome) : HealthAgg :=
  checks.foldl healthStep ⟨.healthy, []⟩

/-- The `overall`-component of one loop iteration, as a function of the
current overall status only. -/
def overallStep (o : HealthStatus) (s : HealthStatus) : HealthStatus :=
  if s = .critical ∨ s = .error then .critical
  else if s = .warning ∧ o = .healthy then .warning
  else o

theorem healthStep_overall (acc : HealthAgg) (c : CheckOutcome) :
    (healthStep acc c).overall = overallStep acc.overall c.status := by
  unfold healthStep overallStep
  split
  · rfl
  · split
    · rfl
    · rfl

theorem foldl_healthStep_overall (checks : List CheckOutcome) (acc : HealthAgg) :
    (checks.foldl healthStep acc).overall =
      checks.foldl (fun o c => overallStep o c.status) acc.overall := by
  induction checks generalizing acc with
  | nil => rfl
  | cons c cs ih =>
      simp only [List.foldl_cons, ih, healthStep_overall]

theorem foldl_overallStep_critical (checks : List CheckOutcome) :
    checks.foldl (fun o c => overallStep o c.status) .critical = .critical := by
  induction checks with
  | nil => rfl
  | cons c cs ih =>
      simp only [List.foldl_cons]
      have h : overallStep .critical c.status = .critical := by
        unfold overallStep
        split
        · rfl
        · split
          · rename_i hw
            exact absurd hw.2 (by intro h; cases h)
          · rfl
      rw [h, ih]

theorem foldl_overallStep_warning (checks : List CheckOutcome) :
    checks.foldl (fun o c => overallStep o c.status) .warning =
      (if checks.any (fun c => c.status = .critical || c.status = .error)
       then .critical else .warning) := by
  induction checks with
  | nil => rfl
  | cons c cs ih =>
      simp only [List.foldl_cons, List.any_cons]
      by_cases hc : c.status = .critical ∨ c.status = .error
      · have h : overallStep .warning c.status = .critical := by
          unfold overallStep; rw [if_pos hc]
        rw [h, foldl_overallStep_critical]
        have : (decide (c.status = HealthStatus.critical) ||
            decide (c.status = HealthStatus.error)) = true := by
          rcases hc with h | h <;> simp [h]
        simp [this]
      · have h : overallStep .warning c.status = .warning := by
          unfold overallStep
          rw [if_neg hc]
          split
          · rename_i hw
            exact absurd hw.2 (by intro h; cases h)
          · rfl
        rw [h, ih]
        have : (decide (c.status = HealthStatus.critical) ||
            decide (c.status = HealthStatus.error)) = false := by
          push_neg at hc
          simp [hc.1, hc.2]
        simp [this]

/-- The worst status among a list of component results, under the order
error/critical > warning > healthy, with `error` folded into `critical`. -/
def worstStatus (checks : List CheckOutcome) : HealthStatus :=
  if checks.any (fun c => c.status = .critical || c.status = .error) then .critical
  else if checks.any (fun c => c.status = .warning) then .warning
  else .healthy

/-- C2: for every combination of per-component health-check results, the
overall status computed by `performHealthCheck` equals the worst status among
the component results: `healthy` when all checks are healthy, `warning` when
the worst is a warning, and `critical` when any check reports `error` or
`critical`. -/
theorem health_overall_is_worst (checks : List CheckOutcome) :
    (performHealthCheckAgg checks).overall = worstStatus checks := by
  unfold performHealthCheckAgg worstStatus
  rw [foldl_healthStep_overall]
  induction checks with
  | nil => rfl
  | cons c cs ih =>
      simp only [List.foldl_cons, List.any_cons]
      by_cases hc : c.status = .critical ∨ c.status = .error
      · have h : overallStep .healthy c.status = .critical := by
          unfold overallStep; rw [if_pos hc]
        rw [h, foldl_overallStep_critical]
        have : (decide (c.status = HealthStatus.critical) ||
            decide (c.status = HealthStatus.error)) = true := by
          rcases hc with h | h <;> simp [h]
        simp [this]
      · have hcb : (decide (c.status = HealthStatus.critical) ||
            decide (c.status = HealthStatus.error)) = false := by
          push_neg at hc
          simp [hc.1, hc.2]
        by_cases hw : c.status = .warning
        · have h : overallStep .healthy c.status = .warning := by
            unfold overallStep
            rw [if_neg hc, if_pos ⟨hw, rfl⟩]
          rw [h, foldl_overallStep_warning]
          simp [hcb, hw]
        · have h : overallStep .healthy c.status = .healthy := by
            unfold overallStep
            rw [if_neg hc]
            split
            · rename_i h'
              exact absurd h'.1 hw
            · rfl
          rw [h, ih]
          simp [hcb, hw]

/-! ## C3: HTTP status of GET /monitoring/health (player.js:753-768) -/

/-- The status-code selection of the health endpoint: start from 200; a
`warning` overall keeps 200; a `critical` or `error` overall selects 503. -/
def healthHttpStatus (overall : HealthStatus) : Nat :=
  if overall = .warning then 200
  else if overall = .critical ∨ overall = .error then 503
  else 200

/-- C3: the monitoring health endpoint responds 503 exactly when the overall
status is `critical` or `error`, and 200 in every other case, including
`warning`. -/
theorem health_endpoint_status_code (o : HealthStatus) :
    (healthHttpStatus o = 503 ↔ (o = .critical ∨ o = .error)) ∧
    (healthHttpStatus o = 200 ↔ ¬(o = .critical ∨ o = .error)) ∧
    healthHttpStatus .warning = 200 := by
  cases o <;> simp [healthHttpStatus]

/-! ## C5: memory health check (monitoringService.js:416-443)

`checkMemoryHealth` reads `getMemoryMetrics()`, whose process usage percent is
`heapUsed / heapTotal * 100` and whose system usage percent is
`(total - free) / total * 100`, and compares them against
`alertThresholds.memoryUsage = 0.9` (times 100) and the literal 75. -/

/-- The status computed by `checkMemoryHealth`, as a function of the raw
memory readings. The `message`, `processUsage`, … fields of the result are
formatting only and are not modelled. -/
def checkMemoryHealth (heapUsed heapTotal sysTotal sysFree : ℚ) : HealthStatus :=
  let processUsage := heapUsed / heapTotal * 100
  let systemUsage := (sysTotal - sysFree) / sysTotal * 100
  if processUsage > (9/10) * 100 then .critical
  else if systemUsage > (9/10) * 100 then .warning
  else if processUsage > 75 then .warning
  else .healthy

/-- C5 counterexample: with the heap at exactly 90% (90 of 100 bytes used)
and system memory usage at 50% (below its 90% threshold), `checkMemoryHealth`
returns `warning`, not `critical` as the claim states: the code uses a strict
`>` comparison against the 90% threshold. -/
theorem checkMemoryHealth_at_90_not_critical :
    checkMemoryHealth 90 100 100 50 = .warning ∧
    checkMemoryHealth 90 100 100 50 ≠ .critical := by
  have h : checkMemoryHealth 90 100 100 50 = .warning := by
    norm_num [checkMemoryHealth]
  exact ⟨h, by rw [h]; intro hc; cases hc⟩

/-- C5 (amended): a process heap usage of exactly 90% is classified `warning`
(critical requires strictly more than 90%), 89.9% is `warning`, and 74.9% is
`healthy`, assuming system memory usage is below its 90% threshold. -/
theorem checkMemoryHealth_boundaries :
    checkMemoryHealth 90 100 100 50 = .warning ∧
    checkMemoryHealth 899 1000 100 50 = .warning ∧
    checkMemoryHealth 749 1000 100 50 = .healthy := by
  refine ⟨?_, ?_, ?_⟩ <;> norm_num [checkMemoryHealth]

/-! ## Metric stores (monitoringService.js:6-27, 59-114, 664-673)

`this.metrics.requests` and `this.metrics.errors` are JavaScript `Map`s from
a string key to an array of records. A `Map` is modelled as an association
list: `set` replaces the value of an existing key in place and appends a new
key at the end, and `size` is the number of entries. -/

/-- A JavaScript `Map`, as an association list in insertion order. -/
abbrev JsMap (α β : Type) := List (α × β)

/-- `Map.prototype.get`, as an `Option`. -/
def JsMap.get? {α β : Type} [BEq α] (m : JsMap α β) (k : α) : Option β :=
  m.lookup k

/-- `Map.prototype.set`: update an existing key in place, otherwise append. -/
def JsMap.set {α β : Type} [BEq α] (m : JsMap α β) (k : α) (v : β) : JsMap α β :=
  match m with
  | [] => [(k, v)]
  | (k', v') :: rest => if k' == k then (k, v) :: rest else (k', v') :: JsMap.set rest k v

/-- `Map.prototype.size` (the maps here are only built through `set`, so
entries have distinct keys). -/
def JsMap.size {α β : Type} (m : JsMap α β) : Nat := m.length

/-- One request record, as pushed by `recordRequest`
(monitoringService.js:67-73). `success` is `statusCode >= 200 && statusCode < 400`. -/
structure RequestRecord where
  timestamp : Int
  statusCode : Int
  responseTime : Int
  userId : Option String
  success : Bool
deriving DecidableEq, Repr

/-- Severity levels assigned by `getErrorSeverity` (monitoringService.js:119-125). -/
inductive ErrSeverity where
  | low
  | medium
  | high
  | critical
deriving DecidableEq, Repr

/-- `getErrorSeverity`: a fixed mapping from the error's `name` to a severity,
defaulting to `medium`. -/
def getErrorSeverity (name : Option String) : ErrSeverity :=
  if name = some "ValidationError" then .low
  else if name = some "AuthenticationError" then .medium
  else if name = some "DatabaseError" then .high
  else if name = some "SystemError" then .critical
  else .medium

/-- A JavaScript `Error` as consumed by `recordError`: its `name` (possibly
absent or empty, both falsy), `message` and `stack`. -/
structure JsError where
  name : Option String
  message : String
  stack : String
deriving DecidableEq, Repr

/-- `error.name || 'UnknownError'` (monitoringService.js:87). -/
def errorKeyOf (name : Option String) : String :=
  match name with
  | some n => if n = "" then "UnknownError" else n
  | none => "UnknownError"

/-- One error record, as pushed by `recordError` (monitoringService.js:93-99).
The `context` property bag is modelled as an opaque string. -/
structure ErrorRecord where
  timestamp : Int
  message : String
  stack : String
  context : String
  severity : ErrSeverity
deriving DecidableEq, Repr

/-- The in-memory state of the monitoring service: the per-endpoint request
log map and the per-kind error log map. (The `performance` and `system` maps
are not touched by the operations modelled here.) -/
structure MonitoringState where
  requests : JsMap String (List RequestRecord)
  errors : JsMap String (List ErrorRecord)
deriving DecidableEq, Repr

/-- The state of the freshly constructed service. -/
def emptyState : MonitoringState := ⟨[], []⟩

/-- Append a record to a log and, when the log now exceeds `cap` entries,
`splice(0, length - cap)`: drop from the front down to the cap. -/
def boundedPush {α : Type} (cap : Nat) (log : List α) (r : α) : List α :=
  let l := log ++ [r]
  if l.length > cap then l.drop (l.length - cap) else l

/-- Read-modify-write of one key of a log map, as done by both record
functions: get the key's array (an absent key was just initialised to `[]`),
push the record, truncate to the cap. -/
def mapBoundedPush {β : Type} (cap : Nat) (m : JsMap String (List β))
    (k : String) (r : β) : JsMap String (List β) :=
  m.set k (boundedPush cap ((m.get? k).getD []) r)

/-- `recordRequest(endpoint, method, statusCode, responseTime, userId)`
(monitoringService.js:59-80). `timestamp` is the `Date.now()` value observed
by the call. The per-key log is capped at 1000. -/
def recordRequest (st : MonitoringState) (endpoint method : String)
    (statusCode responseTime : Int) (userId : Option String)
    (timestamp : Int) : MonitoringState :=
  let key := method ++ ":" ++ endpoint
  let r : RequestRecord :=
    { timestamp := timestamp, statusCode := statusCode,
      responseTime := responseTime, userId := userId,
      success := decide (200 ≤ statusCode) && decide (statusCode < 400) }
  { st with requests := mapBoundedPush 1000 st.requests key r }

/-- `recordError(error, context)` (monitoringService.js:85-114). The per-kind
log is capped at 500. -/
def recordError (st : MonitoringState) (e : JsError) (context : String)
    (timestamp : Int) : MonitoringState :=
  let key := errorKeyOf e.name
  let r : ErrorRecord :=
    { timestamp := timestamp, message := e.message, stack := e.stack,
      context := context, severity := getErrorSeverity e.name }
  { st with errors := mapBoundedPush 500 st.errors key r }

/-- `getStats()` (monitoringService.js:664-673): the `requests` and `errors`
fields are the `size` of the two maps (number of distinct keys). The
remaining fields (`systemSnapshots`, `uptime`, `memoryUsage`,
`healthChecks`) read process state and are not modelled. -/
structure Stats where
  requests : Nat
  errors : Nat
deriving DecidableEq, Repr

def getStats (st : MonitoringState) : Stats :=
  ⟨st.requests.size, st.errors.size⟩

/-! ### The bounded-log invariant -/

theorem boundedPush_eq_drop {α : Type} (cap : Nat) (log : List α) (r : α) :
    boundedPush cap log r = (log ++ [r]).drop ((log.length + 1) - cap) := by
  unfold boundedPush
  simp only [List.length_append, List.length_cons, List.length_nil, Nat.zero_add]
  split
  · rfl
  · rename_i h
    have : log.length + 1 - cap = 0 := by omega
    rw [this, List.drop_zero]

theorem length_boundedPush_le {α : Type} (cap : Nat) (log : List α) (r : α)
    (h : log.length ≤ cap) : (boundedPush cap log r).length ≤ cap := by
  rw [boundedPush_eq_drop, List.length_drop]
  simp only [List.length_append, List.length_cons, List.length_nil, Nat.zero_add]
  omega

/-- Folding `boundedPush` over a sequence of records keeps exactly the most
recent `cap` records in insertion order. -/
theorem foldl_boundedPush {α : Type} (cap : Nat) :
    ∀ (rs : List α) (log : List α), log.length ≤ cap →
      rs.foldl (boundedPush cap) log =
        (log ++ rs).drop ((log.length + rs.length) - cap) := by
  intro rs
  induction rs with
  | nil =>
      intro log h
      simp only [List.foldl_nil, List.append_nil, List.length_nil, Nat.add_zero]
      have : log.length - cap = 0 := by omega
      rw [this, List.drop_zero]
  | cons r rs ih =>
      intro log h
      simp only [List.foldl_cons]
      have hlen : (boundedPush cap log r).length ≤ cap :=
        length_boundedPush_le cap log r h
      rw [ih (boundedPush cap log r) hlen]
      rw [boundedPush_eq_drop]
      have hd : log.length + 1 - cap ≤ (log ++ [r]).length := by
        simp only [List.length_append, List.length_cons, List.length_nil, Nat.zero_add]
        omega
      have hlen2 : ((log ++ [r]).drop (log.length + 1 - cap)).length =
          (log.length + 1) - (log.length + 1 - cap) := by
        rw [List.length_drop]
        simp only [List.length_append, List.length_cons, List.length_nil, Nat.zero_add]
      rw [hlen2, ← List.drop_append_of_le_length hd, List.drop_drop]
      have harr : (log ++ [r]) ++ rs = log ++ r :: rs := by
        simp
      rw [harr]
      congr 1
      simp only [List.length_cons]
      omega

/-! ### Sequences of record calls -/

/-- The arguments of one `recordRequest` call, together with the `Date.now()`
value it observes. -/
structure RequestCall where
  endpoint : String
  method : String
  statusCode : Int
  responseTime : Int
  userId : Option String
  timestamp : Int
deriving DecidableEq, Repr

/-- The log key `` `${method}:${endpoint}` `` of a call. -/
def RequestCall.key (c : RequestCall) : String := c.method ++ ":" ++ c.endpoint

/-- The record the call pushes. -/
def RequestCall.record (c : RequestCall) : RequestRecord :=
  { timestamp := c.timestamp, statusCode := c.statusCode,
    responseTime := c.responseTime, userId := c.userId,
    success := decide (200 ≤ c.statusCode) && decide (c.statusCode < 400) }

def runRequestCalls (st : MonitoringState) (cs : List RequestCall) : MonitoringState :=
  cs.foldl (fun st c =>
    recordRequest st c.endpoint c.method c.statusCode c.responseTime c.userId c.timestamp) st

/-- The arguments of one `recordError` call. -/
structure ErrorCall where
  err : JsError
  context : String
  timestamp : Int
deriving DecidableEq, Repr

/-- The log key `error.name || 'UnknownError'` of a call. -/
def ErrorCall.key (e : ErrorCall) : String := errorKeyOf e.err.name

/-- The record the call pushes. -/
def ErrorCall.record (e : ErrorCall) : ErrorRecord :=
  { timestamp := e.timestamp, message := e.err.message, stack := e.err.stack,
    context := e.context, severity := getErrorSeverity e.err.name }

def runErrorCalls (st : MonitoringState) (es : List ErrorCall) : MonitoringState :=
  es.foldl (fun st e => recordError st e.err e.context e.timestamp) st

theorem mapBoundedPush_singleton {β : Type} (cap : Nat) (k : String)
    (l : List β) (r : β) :
    mapBoundedPush cap [(k, l)] k r = [(k, boundedPush cap l r)] := by
  unfold mapBoundedPush JsMap.get? JsMap.set
  simp [List.lookup]

theorem runRequestCalls_allKey (k : String) :
    ∀ (cs : List RequestCall) (l : List RequestRecord)
      (E : JsMap String (List ErrorRecord)),
      (∀ c ∈ cs, c.key = k) →
      runRequestCalls ⟨[(k, l)], E⟩ cs =
        ⟨[(k, (cs.map RequestCall.record).foldl (boundedPush 1000) l)], E⟩ := by
  intro cs
  induction cs with
  | nil => intro l E _; rfl
  | cons c cs ih =>
      intro l E h
      have hk : c.key = k := h c (by simp)
      have hstep :
          recordRequest ⟨[(k, l)], E⟩ c.endpoint c.method c.statusCode
              c.responseTime c.userId c.timestamp =
            ⟨[(k, boundedPush 1000 l c.record)], E⟩ := by
        unfold recordRequest
        have hkey : c.method ++ ":" ++ c.endpoint = k := hk
        rw [hkey]
        dsimp only
        rw [mapBoundedPush_singleton]
        rfl
      show runRequestCalls
        (recordRequest ⟨[(k, l)], E⟩ c.endpoint c.method c.statusCode
          c.responseTime c.userId c.timestamp) cs = _
      rw [hstep, ih (boundedPush 1000 l c.record) E (fun c hc => h c (by simp [hc]))]
      rfl

theorem runErrorCalls_allKey (k : String) :
    ∀ (es : List ErrorCall) (l : List ErrorRecord)
      (R : JsMap String (List RequestRecord)),
      (∀ e ∈ es, e.key = k) →
      runErrorCalls ⟨R, [(k, l)]⟩ es =
        ⟨R, [(k, (es.map ErrorCall.record).foldl (boundedPush 500) l)]⟩ := by
  intro es
  induction es with
  | nil => intro l R _; rfl
  | cons e es ih =>
      intro l R h
      have hk : e.key = k := h e (by simp)
      have hstep :
          recordError ⟨R, [(k, l)]⟩ e.err e.context e.timestamp =
            ⟨R, [(k, boundedPush 500 l e.record)]⟩ := by
        unfold recordError
        have hkey : errorKeyOf e.err.name = k := hk
        rw [hkey]
        dsimp only
        rw [mapBoundedPush_singleton]
        rfl
      show runErrorCalls (recordError ⟨R, [(k, l)]⟩ e.err e.context e.timestamp) es = _
      rw [hstep, ih (boundedPush 500 l e.record) R (fun e he => h e (by simp [he]))]
      rfl

theorem boundedPush_nil_large {β : Type} (cap : Nat) (r : β) (h : 1 ≤ cap) :
    boundedPush cap ([] : List β) r = [r] := by
  unfold boundedPush
  simp
  omega

theorem runRequestCalls_from_empty (k : String) (cs : List RequestCall)
    (h : ∀ c ∈ cs, c.key = k) (hne : cs ≠ []) :
    runRequestCalls emptyState cs =
      ⟨[(k, (cs.map RequestCall.record).drop (cs.length - 1000))], []⟩ := by
  match cs with
  | [] => exact absurd rfl hne
  | c :: cs =>
      have hk : c.key = k := h c (by simp)
      have hstep :
          recordRequest emptyState c.endpoint c.method c.statusCode
              c.responseTime c.userId c.timestamp =
            ⟨[(k, [c.record])], []⟩ := by
        unfold recordRequest emptyState
        have hkey : c.method ++ ":" ++ c.endpoint = k := hk
        rw [hkey]
        dsimp only
        unfold mapBoundedPush
        rw [show ((JsMap.get? ([] : JsMap String (List RequestRecord)) k).getD []) =
          ([] : List RequestRecord) from rfl]
        rw [boundedPush_nil_large 1000 _ (by omega)]
        rfl
      show runRequestCalls
        (recordRequest emptyState c.endpoint c.method c.statusCode
          c.responseTime c.userId c.timestamp) cs = _
      rw [hstep, runRequestCalls_allKey k cs [c.record] [] (fun c hc => h c (by simp [hc]))]
      rw [foldl_boundedPush 1000 (cs.map RequestCall.record) [c.record] (by simp)]
      simp only [List.length_cons, List.map_cons, List.singleton_append,
        List.length_singleton, List.length_map, List.length_nil]
      have harith : 0 + 1 + cs.length - 1000 = cs.length + 1 - 1000 := by omega
      rw [harith]

theorem runErrorCalls_from_empty (k : String) (es : List ErrorCall)
    (h : ∀ e ∈ es, e.key = k) (hne : es ≠ []) :
    runErrorCalls emptyState es =
      ⟨[], [(k, (es.map ErrorCall.record).drop (es.length - 500))]⟩ := by
  match es with
  | [] => exact absurd rfl hne
  | e :: es =>
      have hk : e.key = k := h e (by simp)
      have hstep :
          recordError emptyState e.err e.context e.timestamp =
            ⟨[], [(k, [e.record])]⟩ := by
        unfold recordError emptyState
        have hkey : errorKeyOf e.err.name = k := hk
        rw [hkey]
        dsimp only
        unfold mapBoundedPush
        rw [show ((JsMap.get? ([] : JsMap String (List ErrorRecord)) k).getD []) =
          ([] : List ErrorRecord) from rfl]
        rw [boundedPush_nil_large 500 _ (by omega)]
        rfl
      show runErrorCalls (recordError emptyState e.err e.context e.timestamp) es = _
      rw [hstep, runErrorCalls_allKey k es [e.record] [] (fun e he => h e (by simp [he]))]
      rw [foldl_boundedPush 500 (es.map ErrorCall.record) [e.record] (by simp)]
      simp only [List.length_cons, List.map_cons, List.singleton_append,
        List.length_singleton, List.length_map, List.length_nil]
      have harith : 0 + 1 + es.length - 500 = es.length + 1 - 500 := by omega
      rw [harith]

/-- C1: for every sequence of `recordRequest` calls to the same endpoint key,
the per-key request log holds exactly the most recent 1000 records (all of
them, in insertion order, while there are at most 1000) and hence never more
than 1000; likewise `recordError` caps each per-kind error log at the most
recent 500 records, oldest evicted first. -/
theorem metric_store_bounded :
    (∀ (k : String) (cs : List RequestCall), (∀ c ∈ cs, c.key = k) →
      (((runRequestCalls emptyState cs).requests.get? k).getD []) =
          (cs.map RequestCall.record).drop (cs.length - 1000) ∧
        ((((runRequestCalls emptyState cs).requests.get? k).getD [])).length ≤ 1000) ∧
    (∀ (k : String) (es : List ErrorCall), (∀ e ∈ es, e.key = k) →
      (((runErrorCalls emptyState es).errors.get? k).getD []) =
          (es.map ErrorCall.record).drop (es.length - 500) ∧
        ((((runErrorCalls emptyState es).errors.get? k).getD [])).length ≤ 500) := by
  constructor
  · intro k cs h
    match hcs : cs with
    | [] =>
        refine ⟨rfl, by simp [runRequestCalls, emptyState, JsMap.get?, List.lookup]⟩
    | c :: cs' =>
        rw [runRequestCalls_from_empty k (c :: cs') h (by simp)]
        have hget : ((JsMap.get?
            [(k, ((c :: cs').map RequestCall.record).drop ((c :: cs').length - 1000))] k).getD [])
            = ((c :: cs').map RequestCall.record).drop ((c :: cs').length - 1000) := by
          simp [JsMap.get?, List.lookup]
        rw [hget]
        refine ⟨rfl, ?_⟩
        rw [List.length_drop, List.length_map]
        simp only [List.length_cons]
        omega
  · intro k es h
    match hes : es with
    | [] =>
        refine ⟨rfl, by simp [runErrorCalls, emptyState, JsMap.get?, List.lookup]⟩
    | e :: es' =>
        rw [runErrorCalls_from_empty k (e :: es') h (by simp)]
        have hget : ((JsMap.get?
            [(k, ((e :: es').map ErrorCall.record).drop ((e :: es').length - 500))] k).getD [])
            = ((e :: es').map ErrorCall.record).drop ((e :: es').length - 500) := by
          simp [JsMap.get?, List.lookup]
        rw [hget]
        refine ⟨rfl, ?_⟩
        rw [List.length_drop, List.length_map]
        simp only [List.length_cons]
        omega

/-- Witness for C1 at a concrete call sequence: one request call keyed
`"GET:/x"` and one error call keyed `"TypeError"`. -/
theorem metric_store_bounded_witness :
    (((runRequestCalls emptyState
        [⟨"/x", "GET", 200, 5, none, 1⟩]).requests.get? "GET:/x").getD []) =
      [⟨1, 200, 5, none, true⟩] ∧
    (((runErrorCalls emptyState
        [⟨⟨some "TypeError", "boom", "st"⟩, "ctx", 2⟩]).errors.get? "TypeError").getD []) =
      [⟨2, "boom", "st", "ctx", .medium⟩] := by
  constructor
  · have h := (metric_store_bounded.1 "GET:/x" [⟨"/x", "GET", 200, 5, none, 1⟩]
      (by intro c hc; simp at hc; subst hc; rfl)).1
    rw [h]
    rfl
  · have h := (metric_store_bounded.2 "TypeError" [⟨⟨some "TypeError", "boom", "st"⟩, "ctx", 2⟩]
      (by intro e he; simp at he; subst he; rfl)).1
    rw [h]
    rfl

/-- C10: `getStats` reports in `requests` and `errors` the map sizes (the
number of distinct endpoint keys / error kinds), not the number of stored
records: after any non-empty sequence of `recordRequest` calls that all
normalize to one endpoint key, `getStats().requests = 1` regardless of the
number of calls, and symmetrically for errors. -/
theorem getStats_counts_keys :
    (∀ st : MonitoringState,
      getStats st = ⟨st.requests.length, st.errors.length⟩) ∧
    (∀ (k : String) (cs : List RequestCall), cs ≠ [] → (∀ c ∈ cs, c.key = k) →
      (getStats (runRequestCalls emptyState cs)).requests = 1) ∧
    (∀ (k : String) (es : List ErrorCall), es ≠ [] → (∀ e ∈ es, e.key = k) →
      (getStats (runErrorCalls emptyState es)).errors = 1) := by
  refine ⟨fun st => rfl, ?_, ?_⟩
  · intro k cs hne h
    rw [runRequestCalls_from_empty k cs h hne]
    rfl
  · intro k es hne h
    rw [runErrorCalls_from_empty k es h hne]
    rfl

/-- Witness for C10: three request calls to one key yield `requests = 1`. -/
theorem getStats_counts_keys_witness :
    (getStats (runRequestCalls emptyState
      [⟨"/x", "GET", 200, 5, none, 1⟩, ⟨"/x", "GET", 404, 7, none, 2⟩,
       ⟨"/x", "GET", 500, 9, none, 3⟩])).requests = 1 := by
  exact getStats_counts_keys.2.1 "GET:/x" _ (by simp)
    (by intro c hc; simp at hc
        rcases hc with h | h | h <;> (subst h; rfl))

/-! ## Stable descending sort

`Array.prototype.sort` with a numeric comparator `(a, b) => keyOf(b) - keyOf(a)`
sorts descending by `keyOf` and, per the ECMAScript specification, is stable.
That sort is modelled by a stable insertion sort: an element is inserted
after every strictly greater element and before the first element that is not
strictly greater, so elements with equal keys keep their relative order. -/

def insertDescBy {α : Type} (key : α → Int) (x : α) : List α → List α
  | [] => [x]
  | y :: l => if key x < key y then y :: insertDescBy key x l else x :: y :: l

def sortDescBy {α : Type} (key : α → Int) (l : List α) : List α :=
  l.foldr (insertDescBy key) []

theorem insertDescBy_perm {α : Type} (key : α → Int) (x : α) (l : List α) :
    (insertDescBy key x l).Perm (x :: l) := by
  induction l with
  | nil => exact List.Perm.refl _
  | cons y l ih =>
      unfold insertDescBy
      split
      · exact ((ih.cons y).trans (List.Perm.swap x y l))
      · exact List.Perm.refl _

theorem sortDescBy_perm {α : Type} (key : α → Int) (l : List α) :
    (sortDescBy key l).Perm l := by
  induction l with
  | nil => exact List.Perm.refl _
  | cons x l ih =>
      show (insertDescBy key x (sortDescBy key l)).Perm (x :: l)
      exact (insertDescBy_perm key x (sortDescBy key l)).trans (ih.cons x)

theorem mem_insertDescBy {α : Type} (key : α → Int) (x z : α) (l : List α) :
    z ∈ insertDescBy key x l ↔ z = x ∨ z ∈ l := by
  rw [(insertDescBy_perm key x l).mem_iff]
  simp

theorem pairwise_insertDescBy {α : Type} (key : α → Int) (x : α) (l : List α)
    (h : l.Pairwise (fun a b => key b ≤ key a)) :
    (insertDescBy key x l).Pairwise (fun a b => key b ≤ key a) := by
  induction l with
  | nil => simp [insertDescBy]
  | cons y l ih =>
      rw [List.pairwise_cons] at h
      unfold insertDescBy
      split
      · rename_i hlt
        rw [List.pairwise_cons]
        refine ⟨?_, ih h.2⟩
        intro z hz
        rw [mem_insertDescBy] at hz
        rcases hz with rfl | hz
        · omega
        · exact h.1 z hz
      · rename_i hge
        rw [List.pairwise_cons]
        refine ⟨?_, List.pairwise_cons.mpr h⟩
        intro z hz
        rcases List.mem_cons.mp hz with rfl | hz
        · omega
        · have := h.1 z hz
          omega

theorem pairwise_sortDescBy {α : Type} (key : α → Int) (l : List α) :
    (sortDescBy key l).Pairwise (fun a b => key b ≤ key a) := by
  induction l with
  | nil => simp [sortDescBy]
  | cons x l ih => exact pairwise_insertDescBy key x (sortDescBy key l) ih

theorem filter_insertDescBy_of_true {α : Type} (key : α → Int) (p : α → Bool)
    (x : α) (l : List α) (hpx : p x = true)
    (hp : ∀ y, key x < key y → p y = false) :
    (insertDescBy key x l).filter p = x :: l.filter p := by
  induction l with
  | nil => simp [insertDescBy, hpx]
  | cons y l ih =>
      unfold insertDescBy
      split
      · rename_i hlt
        rw [List.filter_cons, List.filter_cons]
        rw [hp y hlt]
        simpa using ih
      · rw [List.filter_cons, hpx]
        rfl

theorem filter_insertDescBy_of_false {α : Type} (key : α → Int) (p : α → Bool)
    (x : α) (l : List α) (hpx : p x = false) :
    (insertDescBy key x l).filter p = l.filter p := by
  induction l with
  | nil => simp [insertDescBy, hpx]
  | cons y l ih =>
      unfold insertDescBy
      split
      · rw [List.filter_cons, List.filter_cons, ih]
      · rw [List.filter_cons, hpx]
        rfl

/-- Stability of the sort: a filter that only keeps elements of one key value
is unchanged by sorting, i.e. equal-key elements keep their relative order. -/
theorem filter_sortDescBy {α : Type} (key : α → Int) (p : α → Bool) (kv : Int)
    (hp : ∀ a, p a = true → key a = kv) (l : List α) :
    (sortDescBy key l).filter p = l.filter p := by
  induction l with
  | nil => rfl
  | cons x l ih =>
      show (insertDescBy key x (sortDescBy key l)).filter p = _
      by_cases hpx : p x = true
      · have hside : ∀ y, key x < key y → p y = false := by
          intro y hy
          by_cases hpy : p y = true
          · have h1 := hp x hpx
            have h2 := hp y hpy
            omega
          · simpa using hpy
        rw [filter_insertDescBy_of_true key p x _ hpx hside, List.filter_cons, hpx, ih]
        simp
      · have hpx' : p x = false := by simpa using hpx
        rw [filter_insertDescBy_of_false key p x _ hpx', List.filter_cons, hpx', ih]
        simp

/-! ## C8: GET /monitoring/alerts sort (player.js:884-892) -/

/-- The comparator table `{ critical: 3, warning: 2, info: 1 }`. -/
def severityRank : AlertSeverity → Int
  | .critical => 3
  | .warning => 2
  | .info => 1

/-- `alerts.sort((a, b) => severityOrder[b.severity] - severityOrder[a.severity])`. -/
def sortAlerts (alerts : List Alert) : List Alert :=
  sortDescBy (fun a => severityRank a.severity) alerts

/-- C8: the alerts endpoint sorts by severity descending under
critical > warning > info, the sort is stable (equal-severity alerts keep
their relative order), and on `[warning A, critical B, info C, critical D]`
it yields `[critical B, critical D, warning A, info C]`. -/
theorem alerts_sort_stable_desc :
    sortAlerts [⟨"A", .warning, "a"⟩, ⟨"B", .critical, "b"⟩,
                ⟨"C", .info, "c"⟩, ⟨"D", .critical, "d"⟩] =
      [⟨"B", .critical, "b"⟩, ⟨"D", .critical, "d"⟩,
       ⟨"A", .warning, "a"⟩, ⟨"C", .info, "c"⟩] ∧
    (∀ l : List Alert,
      (sortAlerts l).Pairwise
        (fun a b => severityRank b.severity ≤ severityRank a.severity)) ∧
    (∀ (l : List Alert) (s : AlertSeverity),
      (sortAlerts l).filter (fun a => a.severity == s) =
        l.filter (fun a => a.severity == s)) ∧
    (∀ l : List Alert, (sortAlerts l).Perm l) := by
  refine ⟨by decide, ?_, ?_, ?_⟩
  · intro l
    exact pairwise_sortDescBy _ l
  · intro l s
    refine filter_sortDescBy _ _ (severityRank s) ?_ l
    intro a ha
    have : a.severity = s := by
      simpa using ha
    rw [this]
  · intro l
    exact sortDescBy_perm _ l

/-! ## C7: getErrorMetrics (monitoringService.js:586-626) -/

/-- The shape of entries of `metrics.recent`: `{type, message, timestamp,
severity}`. -/
structure ErrorSummary where
  type : String
  message : String
  timestamp : Int
  severity : ErrSeverity
deriving DecidableEq, Repr

/-- The `bySeverity` counters. -/
structure SeverityCounts where
  low : Nat
  medium : Nat
  high : Nat
  critical : Nat
deriving DecidableEq, Repr

def SeverityCounts.incr (sc : SeverityCounts) : ErrSeverity → SeverityCounts
  | .low => { sc with low := sc.low + 1 }
  | .medium => { sc with medium := sc.medium + 1 }
  | .high => { sc with high := sc.high + 1 }
  | .critical => { sc with critical := sc.critical + 1 }

structure ErrorMetrics where
  total : Nat
  byType : JsMap String Nat
  bySeverity : SeverityCounts
  recent : List ErrorSummary
deriving DecidableEq, Repr

/-- `Array.prototype.slice(-n)`: the last `min n length` elements. -/
def takeLast {α : Type} (n : Nat) (l : List α) : List α := l.drop (l.length - n)

/-- One iteration of the `for (const [errorType, errors] of this.metrics.errors)`
loop of `getErrorMetrics`. -/
def errorMetricsStep (since : Int) (acc : ErrorMetrics)
    (p : String × List ErrorRecord) : ErrorMetrics :=
  let recentErrors := p.2.filter (fun e => decide (since ≤ e.timestamp))
  if recentErrors.length > 0 then
    { total := acc.total + recentErrors.length,
      byType := acc.byType ++ [(p.1, recentErrors.length)],
      bySeverity := recentErrors.foldl (fun sc e => sc.incr e.severity) acc.bySeverity,
      recent := acc.recent ++ (takeLast 10 recentErrors).map
        (fun e => ⟨p.1, e.message, e.timestamp, e.severity⟩) }
  else acc

/-- `getErrorMetrics(since)`: loop over the error map, then sort `recent` by
timestamp descending and keep the first 20. -/
def getErrorMetrics (st : MonitoringState) (since : Int) : ErrorMetrics :=
  let m := st.errors.foldl (errorMetricsStep since) ⟨0, [], ⟨0, 0, 0, 0⟩, []⟩
  { m with recent := (sortDescBy (fun s => s.timestamp) m.recent).take 20 }

/-- A concrete store: eleven `recordError` calls of one kind `"A"`, with
timestamps 1, 2, …, 11. -/
def elevenErrorsState : MonitoringState :=
  runErrorCalls emptyState
    ((List.range 11).map fun i => ⟨⟨some "A", "m", "s"⟩, "c", (i : Int) + 1⟩)

/-- C7 counterexample: with eleven qualifying records of a single kind and
cutoff 0, all eleven qualify (total = 11), yet `recent` holds only ten
records — `slice(-10)` pre-truncates per kind before the global top-20 cut —
and the qualifying record with timestamp 1 is omitted even though fewer than
20 records qualify. -/
theorem errorMetrics_recent_omits_qualifying :
    (getErrorMetrics elevenErrorsState 0).total = 11 ∧
    ((getErrorMetrics elevenErrorsState 0).recent).length = 10 ∧
    (∀ e ∈ (getErrorMetrics elevenErrorsState 0).recent, e.timestamp ≠ 1) := by
  decide

theorem errorMetricsStep_recent_since (since : Int) :
    ∀ (entries : List (String × List ErrorRecord)) (acc : ErrorMetrics),
      (∀ e ∈ acc.recent, since ≤ e.timestamp) →
      ∀ e ∈ (entries.foldl (errorMetricsStep since) acc).recent, since ≤ e.timestamp := by
  intro entries
  induction entries with
  | nil => intro acc h; exact h
  | cons p entries ih =>
      intro acc h
      simp only [List.foldl_cons]
      apply ih
      unfold errorMetricsStep
      dsimp only
      split
      · intro e he
        simp only [List.mem_append] at he
        rcases he with he | he
        · exact h e he
        · rw [List.mem_map] at he
          obtain ⟨r, hr, rfl⟩ := he
          have hr' : r ∈ p.2.filter (fun e => decide (since ≤ e.timestamp)) :=
            List.drop_subset _ _ hr
          have := (List.mem_filter.mp hr').2
          simpa using this
      · exact h

/-- C7 (amended): `recent` holds at most 20 summaries, sorted newest-first,
each with timestamp at or after the cutoff; they are drawn from a pool that
keeps only the last 10 qualifying records per kind, so a qualifying record
beyond its kind's last 10 can be omitted even when `recent` has room. -/
theorem errorMetrics_recent_props (st : MonitoringState) (since : Int) :
    ((getErrorMetrics st since).recent).length ≤ 20 ∧
    ((getErrorMetrics st since).recent).Pairwise
      (fun a b => b.timestamp ≤ a.timestamp) ∧
    (∀ e ∈ (getErrorMetrics st since).recent, since ≤ e.timestamp) := by
  have hrec : (getErrorMetrics st since).recent =
      (sortDescBy (fun s : ErrorSummary => s.timestamp)
        ((st.errors.foldl (errorMetricsStep since)
          ⟨0, [], ⟨0, 0, 0, 0⟩, []⟩).recent)).take 20 := rfl
  rw [hrec]
  refine ⟨List.length_take_le _ _, ?_, ?_⟩
  · exact List.Pairwise.sublist (List.take_sublist _ _) (pairwise_sortDescBy _ _)
  · intro e he
    have he' := List.take_subset _ _ he
    rw [(sortDescBy_perm _ _).mem_iff] at he'
    exact errorMetricsStep_recent_since since st.errors _ (by simp) e he'

/-! ## C4: getRequestMetrics (monitoringService.js:538-581) -/

/-- `Math.round`: round half toward positive infinity. -/
def jsRound (q : ℚ) : Int := ⌊q + 1/2⌋

/-- The per-endpoint breakdown entry of `metrics.endpoints`. -/
structure EndpointMetrics where
  total : Nat
  successful : Nat
  failed : Nat
  averageResponseTime : Int
  errorRate : ℚ
deriving DecidableEq, Repr

/-- The aggregate returned by `getRequestMetrics`. The object literal at the
top of the function has no `errorRate` property; the property is only
assigned inside `if (requestCount > 0)`, so it is modelled as an `Option`
with `none` for "absent". -/
structure RequestMetrics where
  total : Nat
  successful : Nat
  failed : Nat
  averageResponseTime : Int
  errorRate : Option ℚ
  endpoints : JsMap String EndpointMetrics
deriving DecidableEq, Repr

/-- Loop state: the metrics object under construction plus the
`totalResponseTime` and `requestCount` locals. -/
structure RequestAcc where
  metrics : RequestMetrics
  totalResponseTime : ℚ
  requestCount : Nat
deriving DecidableEq, Repr

/-- One iteration of the `for (const [endpoint, requests] of this.metrics.requests)`
loop of `getRequestMetrics`. -/
def requestMetricsStep (since : Int) (acc : RequestAcc)
    (p : String × List RequestRecord) : RequestAcc :=
  let recentRequests := p.2.filter (fun r => decide (since ≤ r.timestamp))
  if recentRequests.length > 0 then
    let successful := (recentRequests.filter (fun r => r.success)).length
    let failed := recentRequests.length - successful
    let sumRT : ℚ := (recentRequests.map (fun r => (r.responseTime : ℚ))).sum
    let avgResponseTime := sumRT / (recentRequests.length : ℚ)
    { metrics := { acc.metrics with
        total := acc.metrics.total + recentRequests.length,
        successful := acc.metrics.successful + successful,
        failed := acc.metrics.failed + failed,
        endpoints := acc.metrics.endpoints ++
          [(p.1, ⟨recentRequests.length, successful, failed,
            jsRound avgResponseTime,
            (failed : ℚ) / (recentRequests.length : ℚ)⟩)] },
      totalResponseTime := acc.totalResponseTime + sumRT,
      requestCount := acc.requestCount + recentRequests.length }
  else acc

/-- `getRequestMetrics(since)`: loop over the request map, then, only when
`requestCount > 0`, fill in the average response time and the error rate. -/
def getRequestMetrics (st : MonitoringState) (since : Int) : RequestMetrics :=
  let acc := st.requests.foldl (requestMetricsStep since) ⟨⟨0, 0, 0, 0, none, []⟩, 0, 0⟩
  if acc.requestCount > 0 then
    { acc.metrics with
      averageResponseTime := jsRound (acc.totalResponseTime / (acc.requestCount : ℚ)),
      errorRate := some ((acc.metrics.failed : ℚ) / (acc.metrics.total : ℚ)) }
  else acc.metrics

/-- C4 counterexample: on the empty store the aggregate has *no* `errorRate`
value at all (the property is never assigned when no records qualify), so it
is not the claimed `errorRate: 0`. -/
theorem requestMetrics_empty_errorRate_absent :
    (getRequestMetrics emptyState 0).errorRate = none ∧
    (getRequestMetrics emptyState 0).errorRate ≠ some 0 := by
  decide

theorem foldl_requestMetricsStep_filtered (since : Int) :
    ∀ (entries : List (String × List RequestRecord)) (acc : RequestAcc),
      (∀ p ∈ entries, ∀ r ∈ p.2, r.timestamp < since) →
      entries.foldl (requestMetricsStep since) acc = acc := by
  intro entries
  induction entries with
  | nil => intro acc _; rfl
  | cons p entries ih =>
      intro acc h
      simp only [List.foldl_cons]
      have hnil : p.2.filter (fun r => decide (since ≤ r.timestamp)) = [] := by
        rw [List.filter_eq_nil_iff]
        intro r hr
        have := h p (by simp) r hr
        simp
        omega
      have hstep : requestMetricsStep since acc p = acc := by
        unfold requestMetricsStep
        rw [hnil]
        rfl
      rw [hstep]
      exact ih acc (fun q hq => h q (by simp [hq]))

/-- C4 (amended): when no stored request record has timestamp at or after the
cutoff (including the empty store), `getRequestMetrics` returns
`{total: 0, successful: 0, failed: 0, averageResponseTime: 0, endpoints: {}}`
with the `errorRate` field absent (not 0), and no division occurs. -/
theorem requestMetrics_all_filtered_out (st : MonitoringState) (since : Int)
    (h : ∀ p ∈ st.requests, ∀ r ∈ p.2, r.timestamp < since) :
    getRequestMetrics st since = ⟨0, 0, 0, 0, none, []⟩ := by
  unfold getRequestMetrics
  rw [foldl_requestMetricsStep_filtered since st.requests _ h]
  rfl

/-- Witness for C4's amended theorem at the empty store. -/
theorem requestMetrics_all_filtered_out_witness :
    getRequestMetrics emptyState 5 = ⟨0, 0, 0, 0, none, []⟩ :=
  requestMetrics_all_filtered_out emptyState 5 (by simp [emptyState])

/-! ## C9: GET /dashboard/metrics bucketed history (dashboard.js:713-807)

For `range = '24h'` with `history = 'true'`: `timeThreshold = now - 24h`;
`mediaMetrics` is the query result `created_at >= timeThreshold`; the loop
builds 24 buckets `[now - (i+1)h, now - i·h)` for `i = 0…23` and `unshift`s
them, so the resulting array is in chronological order. Times are epoch
milliseconds. -/

/-- Membership of a creation time in loop bucket `i` (counted from the most
recent): `created >= bucketStart && created < bucketEnd`. -/
def bucketPred (now : Int) (i : Nat) (t : Int) : Bool :=
  decide (now - ((i : Int) + 1) * 3600000 ≤ t) && decide (t < now - (i : Int) * 3600000)

/-- The parts of the 24h dashboard metrics response relevant here: the
un-bucketed `content.mediaUploads` count and the per-bucket `mediaUploads`
counts of `metrics.history`. -/
structure Dashboard24h where
  mediaUploads : Nat
  history : List Nat
deriving DecidableEq, Repr

def dashboardMetrics24h (now : Int) (created : List Int) : Dashboard24h :=
  let timeThreshold := now - 24 * 3600000
  let mediaMetrics := created.filter (fun t => decide (timeThreshold ≤ t))
  { mediaUploads := mediaMetrics.length,
    history := ((List.range 24).map
      (fun i => (mediaMetrics.filter (bucketPred now i)).length)).reverse }

/-- C9 counterexample: a media row created at exactly `now` is counted by the
un-bucketed aggregate (the query has no upper bound) but falls in no bucket
(the most recent bucket is half-open at `now`), so the bucket counts do not
sum to the aggregate. -/
theorem dashboard_history_sum_mismatch :
    (dashboardMetrics24h 0 [0]).mediaUploads = 1 ∧
    (dashboardMetrics24h 0 [0]).history.sum = 0 := by
  decide

theorem length_filter_split {α : Type} (p q r : α → Bool)
    (h : ∀ x, r x = (p x || q x)) (hd : ∀ x, ¬(p x = true ∧ q x = true)) :
    ∀ l : List α, (l.filter p).length + (l.filter q).length = (l.filter r).length := by
  intro l
  induction l with
  | nil => rfl
  | cons x l ih =>
      rw [List.filter_cons, List.filter_cons, List.filter_cons, h x]
      cases hp : p x <;> cases hq : q x
      · simpa using ih
      · simp only [Bool.false_or]
        simp
        omega
      · simp only [Bool.true_or]
        simp
        omega
      · exact absurd ⟨hp, hq⟩ (hd x)

theorem bucket_sum (now : Int) (l : List Int) :
    ∀ n : Nat, ((List.range n).map (fun i => (l.filter (bucketPred now i)).length)).sum =
      (l.filter (fun t => decide (now - (n : Int) * 3600000 ≤ t) && decide (t < now))).length := by
  intro n
  induction n with
  | zero =>
      simp only [List.range_zero, List.map_nil, List.sum_nil]
      have : l.filter (fun t => decide (now - ((0 : Nat) : Int) * 3600000 ≤ t) &&
          decide (t < now)) = [] := by
        rw [List.filter_eq_nil_iff]
        intro t _
        simp only [Bool.and_eq_true, decide_eq_true_eq, not_and]
        omega
      rw [this]
      rfl
  | succ n ih =>
      rw [List.range_succ, List.map_append, List.sum_append]
      simp only [List.map_cons, List.map_nil, List.sum_cons, List.sum_nil, Nat.add_zero]
      rw [ih]
      refine length_filter_split _ _ _ ?_ ?_ l
      · intro t
        rw [Bool.eq_iff_iff]
        simp only [Bool.and_eq_true, decide_eq_true_eq, Bool.or_eq_true, bucketPred]
        push_cast
        constructor
        · intro ht
          omega
        · intro ht
          omega
      · intro t
        simp only [Bool.and_eq_true, decide_eq_true_eq, bucketPred, not_and]
        omega

/-- C9 (amended): with history enabled on a 24h range the endpoint returns
exactly 24 buckets, pairwise non-overlapping with half-open hour boundaries
`[start, end)`; their counts sum to the number of events in
`[now − 24h, now)`, which equals the un-bucketed aggregate exactly when no
returned event has timestamp at or after `now` (an event at `t ≥ now` is in
the aggregate but in no bucket). -/
theorem dashboard_history_buckets (now : Int) (created : List Int) :
    (dashboardMetrics24h now created).history.length = 24 ∧
    (∀ (i : Nat) (t : Int), bucketPred now i t = true ↔
      (now - ((i : Int) + 1) * 3600000 ≤ t ∧ t < now - (i : Int) * 3600000)) ∧
    (∀ (t : Int) (i j : Nat), i ≠ j →
      ¬(bucketPred now i t = true ∧ bucketPred now j t = true)) ∧
    (dashboardMetrics24h now created).history.sum =
      (created.filter (fun t =>
        decide (now - 24 * 3600000 ≤ t) && decide (t < now))).length ∧
    ((∀ t ∈ created, t < now) →
      (dashboardMetrics24h now created).history.sum =
        (dashboardMetrics24h now created).mediaUploads) := by
  have hhist : (dashboardMetrics24h now created).history =
      ((List.range 24).map
        (fun i => ((created.filter (fun t => decide (now - 24 * 3600000 ≤ t))).filter
          (bucketPred now i)).length)).reverse := rfl
  have hsum : (dashboardMetrics24h now created).history.sum =
      (created.filter (fun t =>
        decide (now - 24 * 3600000 ≤ t) && decide (t < now))).length := by
    rw [hhist, List.sum_reverse]
    rw [bucket_sum now (created.filter (fun t => decide (now - 24 * 3600000 ≤ t))) 24]
    rw [List.filter_filter]
    refine congrArg List.length (List.filter_congr ?_)
    intro t _
    rw [Bool.eq_iff_iff]
    simp only [Bool.and_eq_true, decide_eq_true_eq]
    push_cast
    omega
  refine ⟨by rw [hhist]; simp, ?_, ?_, hsum, ?_⟩
  · intro i t
    simp [bucketPred]
  · intro t i j hij
    intro hcontra
    rcases hcontra with ⟨h1, h2⟩
    simp only [bucketPred, Bool.and_eq_true, decide_eq_true_eq] at h1 h2
    rcases h1 with ⟨h1a, h1b⟩
    rcases h2 with ⟨h2a, h2b⟩
    omega
  · intro hlt
    rw [hsum]
    have : created.filter (fun t =>
        decide (now - 24 * 3600000 ≤ t) && decide (t < now)) =
        created.filter (fun t => decide (now - 24 * 3600000 ≤ t)) := by
      refine List.filter_congr ?_
      intro t ht
      rw [Bool.eq_iff_iff]
      simp only [Bool.and_eq_true, decide_eq_true_eq]
      have := hlt t ht
      constructor
      · intro h
        exact h.1
      · intro h
        exact ⟨h, this⟩
    rw [this]
    rfl

/-- Witness for C9's amended theorem: two events strictly before `now`, one
inside the last hour and one a day old (outside the window). -/
theorem dashboard_history_buckets_witness :
    (dashboardMetrics24h 86400001 [86400000, 0]).history.sum =
      (dashboardMetrics24h 86400001 [86400000, 0]).mediaUploads := by
  exact (dashboard_history_buckets 86400001 [86400000, 0]).2.2.2.2
    (by intro t ht; simp at ht; rcases ht with rfl | rfl <;> omega)

/-! ## C6: getEndpointPattern (monitoring.js:75-84)

```js
return path
  .replace(/\/[0-9a-f]{8}-[0-9a-f]{4}-[0-9a-f]{4}-[0-9a-f]{4}-[0-9a-f]{12}/gi, '/:id')
  .replace(/\/\d+/g, '/:id')
  .replace(/\/[a-zA-Z0-9]{8,}/g, '/:code')
  .toLowerCase();
```

Paths are modelled as lists of character codes. Each `String.replace` with a
global regex is a single left-to-right scan: at each position the pattern is
tried (each pattern starts with the literal `/`, so only at a `/`); on a
match the replacement is emitted and scanning resumes after the matched text
(the replacement itself is not rescanned); otherwise the character is copied.
The scans are implemented with a skip state so that they are structurally
recursive. -/

/-- Character codes of a string literal. -/
def codes (s : String) : List Nat := s.toList.map Char.toNat

def isDigitCode (c : Nat) : Bool := decide (48 ≤ c ∧ c ≤ 57)

/-- `[0-9a-f]` with the `i` flag: also `A`–`F`. -/
def isHexCode (c : Nat) : Bool :=
  isDigitCode c || decide (97 ≤ c ∧ c ≤ 102) || decide (65 ≤ c ∧ c ≤ 70)

/-- `[a-zA-Z0-9]`. -/
def isAlnumCode (c : Nat) : Bool :=
  isDigitCode c || decide (97 ≤ c ∧ c ≤ 122) || decide (65 ≤ c ∧ c ≤ 90)

/-- `String.prototype.toLowerCase` on one character code (the paths handled
here are ASCII; only `A`–`Z` change). -/
def jsToLowerCode (c : Nat) : Nat := if 65 ≤ c ∧ c ≤ 90 then c + 32 else c

/-- Whether `\d+` matches at the start of `l` (at least one digit). -/
def headIsDigit (l : List Nat) : Bool := isDigitCode (l.head?.getD 0)

/-- Length of the maximal alphanumeric run at the start of `l` (the text a
greedy `[a-zA-Z0-9]{8,}` would try to consume). -/
def runLen (l : List Nat) : Nat := (l.takeWhile isAlnumCode).length

/-- Consume exactly `n` hex characters, returning the rest. -/
def hexN : Nat → List Nat → Option (List Nat)
  | 0, l => some l
  | _ + 1, [] => none
  | n + 1, c :: l => if isHexCode c then hexN n l else none

/-- Consume one `-`. -/
def dashNext : List Nat → Option (List Nat)
  | [] => none
  | c :: l => if c = 45 then some l else none

/-- Match the 36-character UUID body `[0-9a-f]{8}-…{4}-…{4}-…{4}-…{12}`
(case-insensitive) at the start of `l`, returning the rest. -/
def uuidMatch (l : List Nat) : Option (List Nat) :=
  (hexN 8 l).bind fun l => (dashNext l).bind fun l =>
  (hexN 4 l).bind fun l => (dashNext l).bind fun l =>
  (hexN 4 l).bind fun l => (dashNext l).bind fun l =>
  (hexN 4 l).bind fun l => (dashNext l).bind fun l => hexN 12 l

/-- The UUID-replacing scan. The `Nat` state counts characters of a match
still to be skipped. The replacement `'/:id'` is `[47, 58, 105, 100]`. -/
def ruAux : Nat → List Nat → List Nat
  | _ + 1, [] => []
  | skip + 1, _ :: rest => ruAux skip rest
  | 0, [] => []
  | 0, c :: rest =>
    if c == 47 && (uuidMatch rest).isSome then
      47 :: 58 :: 105 :: 100 :: ruAux 36 rest
    else c :: ruAux 0 rest

def replaceUuid (l : List Nat) : List Nat := ruAux 0 l

/-- The `\/\d+`-replacing scan; the `Bool` state is "currently consuming the
digit run of a match". -/
def rnAux : Bool → List Nat → List Nat
  | _, [] => []
  | skip, c :: rest =>
    if skip && isDigitCode c then rnAux true rest
    else if c == 47 && headIsDigit rest then
      47 :: 58 :: 105 :: 100 :: rnAux true rest
    else c :: rnAux false rest

def replaceNumeric (l : List Nat) : List Nat := rnAux false l

/-- The `\/[a-zA-Z0-9]{8,}`-replacing scan; the replacement `'/:code'` is
`[47, 58, 99, 111, 100, 101]`. -/
def rcAux : Bool → List Nat → List Nat
  | _, [] => []
  | skip, c :: rest =>
    if skip && isAlnumCode c then rcAux true rest
    else if c == 47 && decide (8 ≤ runLen rest) then
      47 :: 58 :: 99 :: 111 :: 100 :: 101 :: rcAux true rest
    else c :: rcAux false rest

def replaceCodeSeg (l : List Nat) : List Nat := rcAux false l

/-- `getEndpointPattern(path)`: `'unknown'` for a falsy (empty) path,
otherwise the three replacements followed by `toLowerCase()`. -/
def getEndpointPattern (path : List Nat) : List Nat :=
  if path.isEmpty then codes "unknown"
  else (replaceCodeSeg (replaceNumeric (replaceUuid path))).map jsToLowerCode

/-! ### Character-level facts -/

theorem jsToLowerCode_idem (c : Nat) :
    jsToLowerCode (jsToLowerCode c) = jsToLowerCode c := by
  by_cases h : 65 ≤ c ∧ c ≤ 90
  · have h1 : jsToLowerCode c = c + 32 := by rw [jsToLowerCode, if_pos h]
    rw [h1, jsToLowerCode, if_neg (by omega)]
  · have h1 : jsToLowerCode c = c := by rw [jsToLowerCode, if_neg h]
    rw [h1]
    exact h1

theorem isDigitCode_toLower (c : Nat) :
    isDigitCode (jsToLowerCode c) = isDigitCode c := by
  rw [Bool.eq_iff_iff]
  unfold isDigitCode jsToLowerCode
  split <;> simp only [decide_eq_true_eq] <;> omega

theorem isHexCode_toLower (c : Nat) :
    isHexCode (jsToLowerCode c) = isHexCode c := by
  rw [Bool.eq_iff_iff]
  unfold isHexCode isDigitCode jsToLowerCode
  split <;> simp only [Bool.or_eq_true, decide_eq_true_eq] <;> omega

theorem isAlnumCode_toLower (c : Nat) :
    isAlnumCode (jsToLowerCode c) = isAlnumCode c := by
  rw [Bool.eq_iff_iff]
  unfold isAlnumCode isDigitCode jsToLowerCode
  split <;> simp only [Bool.or_eq_true, decide_eq_true_eq] <;> omega

theorem jsToLowerCode_eq_47 (c : Nat) : jsToLowerCode c = 47 ↔ c = 47 := by
  unfold jsToLowerCode
  split <;> omega

theorem jsToLowerCode_eq_45 (c : Nat) : jsToLowerCode c = 45 ↔ c = 45 := by
  unfold jsToLowerCode
  split <;> omega

theorem hex_imp_alnum (c : Nat) (h : isHexCode c = true) : isAlnumCode c = true := by
  unfold isHexCode isDigitCode at h
  unfold isAlnumCode isDigitCode
  simp only [Bool.or_eq_true, decide_eq_true_eq] at h ⊢
  omega

/-! ### Scan-state elimination: the spec-level one-step equations -/

theorem rnAux_true_eq : ∀ l : List Nat,
    rnAux true l = rnAux false (l.dropWhile isDigitCode) := by
  intro l
  induction l with
  | nil => rfl
  | cons c rest ih =>
      by_cases hd : isDigitCode c = true
      · rw [show rnAux true (c :: rest) = rnAux true rest by
          simp [rnAux, hd]]
        rw [ih, List.dropWhile_cons_of_pos hd]
      · have hd' : isDigitCode c = false := by simpa using hd
        rw [List.dropWhile_cons_of_neg (by simp [hd'])]
        show (if true && isDigitCode c then rnAux true rest
              else if c == 47 && headIsDigit rest then
                47 :: 58 :: 105 :: 100 :: rnAux true rest
              else c :: rnAux false rest) = _
        rw [show (true && isDigitCode c) = false by simp [hd']]
        show _ = (if false && isDigitCode c then rnAux true rest
              else if c == 47 && headIsDigit rest then
                47 :: 58 :: 105 :: 100 :: rnAux true rest
              else c :: rnAux false rest)
        rw [show (false && isDigitCode c) = false by simp]

theorem replaceNumeric_nil : replaceNumeric [] = [] := rfl

theorem replaceNumeric_cons (c : Nat) (rest : List Nat) :
    replaceNumeric (c :: rest) =
      if c == 47 && headIsDigit rest then
        47 :: 58 :: 105 :: 100 :: replaceNumeric (rest.dropWhile isDigitCode)
      else c :: replaceNumeric rest := by
  show (if false && isDigitCode c then rnAux true rest
        else if c == 47 && headIsDigit rest then
          47 :: 58 :: 105 :: 100 :: rnAux true rest
        else c :: rnAux false rest) = _
  rw [show (false && isDigitCode c) = false by simp]
  rw [rnAux_true_eq]
  rfl

theorem rcAux_true_eq : ∀ l : List Nat,
    rcAux true l = rcAux false (l.dropWhile isAlnumCode) := by
  intro l
  induction l with
  | nil => rfl
  | cons c rest ih =>
      by_cases hd : isAlnumCode c = true
      · rw [show rcAux true (c :: rest) = rcAux true rest by
          simp [rcAux, hd]]
        rw [ih, List.dropWhile_cons_of_pos hd]
      · have hd' : isAlnumCode c = false := by simpa using hd
        rw [List.dropWhile_cons_of_neg (by simp [hd'])]
        show (if true && isAlnumCode c then rcAux true rest
              else if c == 47 && decide (8 ≤ runLen rest) then
                47 :: 58 :: 99 :: 111 :: 100 :: 101 :: rcAux true rest
              else c :: rcAux false rest) = _
        rw [show (true && isAlnumCode c) = false by simp [hd']]
        show _ = (if false && isAlnumCode c then rcAux true rest
              else if c == 47 && decide (8 ≤ runLen rest) then
                47 :: 58 :: 99 :: 111 :: 100 :: 101 :: rcAux true rest
              else c :: rcAux false rest)
        rw [show (false && isAlnumCode c) = false by simp]

theorem replaceCodeSeg_nil : replaceCodeSeg [] = [] := rfl

theorem replaceCodeSeg_cons (c : Nat) (rest : List Nat) :
    replaceCodeSeg (c :: rest) =
      if c == 47 && decide (8 ≤ runLen rest) then
        47 :: 58 :: 99 :: 111 :: 100 :: 101 ::
          replaceCodeSeg (rest.dropWhile isAlnumCode)
      else c :: replaceCodeSeg rest := by
  show (if false && isAlnumCode c then rcAux true rest
        else if c == 47 && decide (8 ≤ runLen rest) then
          47 :: 58 :: 99 :: 111 :: 100 :: 101 :: rcAux true rest
        else c :: rcAux false rest) = _
  rw [show (false && isAlnumCode c) = false by simp]
  rw [rcAux_true_eq]
  rfl

theorem ruAux_drop_eq : ∀ (n : Nat) (l : List Nat), ruAux n l = ruAux 0 (l.drop n) := by
  intro n
  induction n with
  | zero => intro l; rw [List.drop_zero]
  | succ n ih =>
      intro l
      match l with
      | [] => rfl
      | c :: rest =>
          show ruAux n rest = _
          rw [ih rest]
          rfl

theorem replaceUuid_nil : replaceUuid [] = [] := rfl

theorem replaceUuid_cons (c : Nat) (rest : List Nat) :
    replaceUuid (c :: rest) =
      if c == 47 && (uuidMatch rest).isSome then
        47 :: 58 :: 105 :: 100 :: replaceUuid (rest.drop 36)
      else c :: replaceUuid rest := by
  show (if c == 47 && (uuidMatch rest).isSome then
          47 :: 58 :: 105 :: 100 :: ruAux 36 rest
        else c :: ruAux 0 rest) = _
  rw [ruAux_drop_eq 36 rest]
  rfl

/-! ### Strong induction on list length -/

theorem list_length_ind {α : Type} {P : List α → Prop}
    (step : ∀ l, (∀ m : List α, m.length < l.length → P m) → P l) :
    ∀ l, P l := by
  have key : ∀ (n : Nat) (l : List α), l.length ≤ n → P l := by
    intro n
    induction n with
    | zero =>
        intro l h
        refine step l ?_
        intro m hm
        omega
    | succ n ih =>
        intro l h
        refine step l ?_
        intro m hm
        exact ih m (by omega)
  exact fun l => key l.length l (Nat.le_refl _)

/-! ### Decomposing an output around a slash -/

/-- Splitting `a ++ 47 :: b = pre ++ rest` when `pre` is slash-free: the
slash must fall inside `rest`. -/
theorem append_cons_split : ∀ (pre a b rest : List Nat),
    a ++ 47 :: b = pre ++ rest → 47 ∉ pre →
    ∃ a', a = pre ++ a' ∧ a' ++ 47 :: b = rest := by
  intro pre
  induction pre with
  | nil =>
      intro a b rest h _
      exact ⟨a, by simp, by simpa using h⟩
  | cons p pre ih =>
      intro a b rest h hmem
      match a with
      | [] =>
          exfalso
          have : 47 = p := by
            simpa using congrArg (fun l => l.head?) h
          exact hmem (by simp [← this])
      | x :: a' =>
          have hx : x = p := by
            simpa using congrArg (fun l => l.head?) h
          have htail : a' ++ 47 :: b = pre ++ rest := by
            have := congrArg List.tail h
            simpa using this
          obtain ⟨a'', ha1, ha2⟩ := ih a' b rest htail (fun hc => hmem (by simp [hc]))
          exact ⟨a'', by simp [hx, ha1], ha2⟩

/-! ### Normal-form predicates

After the numeric pass no slash is followed by a digit; after the code pass
no slash is followed by an alphanumeric run of length ≥ 8. The second
property also rules out a UUID match (its first eight characters are hex,
hence alphanumeric). -/

def NoDigitSlash (l : List Nat) : Prop :=
  ∀ a b, l = a ++ 47 :: b → headIsDigit b = false

def SmallRunSlash (l : List Nat) : Prop :=
  ∀ a b, l = a ++ 47 :: b → runLen b < 8

theorem noDigitSlash_of_append {p l : List Nat} (h : NoDigitSlash (p ++ l)) :
    NoDigitSlash l := by
  intro a b hab
  exact h (p ++ a) b (by rw [hab, List.append_assoc])

theorem smallRunSlash_of_append {p l : List Nat} (h : SmallRunSlash (p ++ l)) :
    SmallRunSlash l := by
  intro a b hab
  exact h (p ++ a) b (by rw [hab, List.append_assoc])

theorem noDigitSlash_of_cons {c : Nat} {l : List Nat} (h : NoDigitSlash (c :: l)) :
    NoDigitSlash l :=
  noDigitSlash_of_append (p := [c]) h

theorem smallRunSlash_of_cons {c : Nat} {l : List Nat} (h : SmallRunSlash (c :: l)) :
    SmallRunSlash l :=
  smallRunSlash_of_append (p := [c]) h

theorem noDigitSlash_of_dropWhile {q : Nat → Bool} {l : List Nat}
    (h : NoDigitSlash l) : NoDigitSlash (l.dropWhile q) := by
  have := List.takeWhile_append_dropWhile (p := q) (l := l)
  rw [← this] at h
  exact noDigitSlash_of_append h

theorem nil_no_slash {α : Type} (a b : List α) (x : α) : ([] : List α) ≠ a ++ x :: b := by
  intro h
  have := congrArg List.length h
  simp at this
  omega

/-! ### Head and run preservation by the scans -/

theorem head?_replaceNumeric (l : List Nat) :
    (replaceNumeric l).head? = l.head? := by
  match l with
  | [] => rfl
  | c :: rest =>
      rw [replaceNumeric_cons]
      split
      · rename_i h
        have hc : c = 47 := by
          simp only [Bool.and_eq_true, beq_iff_eq] at h
          exact h.1
        rw [hc]
        rfl
      · rfl

theorem head?_replaceCodeSeg (l : List Nat) :
    (replaceCodeSeg l).head? = l.head? := by
  match l with
  | [] => rfl
  | c :: rest =>
      rw [replaceCodeSeg_cons]
      split
      · rename_i h
        have hc : c = 47 := by
          simp only [Bool.and_eq_true, beq_iff_eq] at h
          exact h.1
        rw [hc]
        rfl
      · rfl

theorem head?_replaceUuid (l : List Nat) :
    (replaceUuid l).head? = l.head? := by
  match l with
  | [] => rfl
  | c :: rest =>
      rw [replaceUuid_cons]
      split
      · rename_i h
        have hc : c = 47 := by
          simp only [Bool.and_eq_true, beq_iff_eq] at h
          exact h.1
        rw [hc]
        rfl
      · rfl

theorem headIsDigit_congr {l m : List Nat} (h : l.head? = m.head?) :
    headIsDigit l = headIsDigit m := by
  unfold headIsDigit
  rw [h]

theorem takeWhile_replaceCodeSeg : ∀ l : List Nat,
    (replaceCodeSeg l).takeWhile isAlnumCode = l.takeWhile isAlnumCode := by
  refine list_length_ind ?_
  intro l ih
  match l with
  | [] => rfl
  | c :: rest =>
      rw [replaceCodeSeg_cons]
      split
      · rename_i h
        have hc : c = 47 := by
          simp only [Bool.and_eq_true, beq_iff_eq] at h
          exact h.1
        subst hc
        rfl
      · rw [List.takeWhile_cons, List.takeWhile_cons]
        by_cases ha : isAlnumCode c = true
        · rw [if_pos ha, if_pos ha, ih rest (by simp)]
        · rw [if_neg ha, if_neg ha]

theorem runLen_replaceCodeSeg (l : List Nat) :
    runLen (replaceCodeSeg l) = runLen l := by
  unfold runLen
  rw [takeWhile_replaceCodeSeg]

/-! ### The numeric pass leaves no slash followed by a digit -/

theorem noDigitSlash_replaceNumeric : ∀ l : List Nat, NoDigitSlash (replaceNumeric l) := by
  refine list_length_ind ?_
  intro l ih
  match l with
  | [] =>
      intro a b hab
      rw [replaceNumeric_nil] at hab
      exact absurd hab (nil_no_slash a b 47)
  | c :: rest =>
      intro a b hab
      rw [replaceNumeric_cons] at hab
      have hdroplen : (rest.dropWhile isDigitCode).length < (c :: rest).length := by
        have := (List.dropWhile_sublist (l := rest) isDigitCode).length_le
        simp only [List.length_cons]
        omega
      by_cases hcond : (c == 47 && headIsDigit rest) = true
      · rw [if_pos hcond] at hab
        match a with
        | [] =>
            have hb : b = 58 :: 105 :: 100 :: replaceNumeric (rest.dropWhile isDigitCode) := by
              have := congrArg List.tail hab.symm
              simpa using this
            rw [hb]
            rfl
        | x :: a' =>
            have htail : a' ++ 47 :: b =
                [58, 105, 100] ++ replaceNumeric (rest.dropWhile isDigitCode) := by
              have := congrArg List.tail hab.symm
              simpa using this
            obtain ⟨a'', _, ha2⟩ :=
              append_cons_split [58, 105, 100] a' b _ htail (by decide)
            exact ih (rest.dropWhile isDigitCode) hdroplen a'' b ha2.symm
      · rw [if_neg hcond] at hab
        match a with
        | [] =>
            have hc : c = 47 := by
              have := congrArg List.head? hab
              simpa using this
            have hb : b = replaceNumeric rest := by
              have := congrArg List.tail hab.symm
              simpa using this
            rw [hb, headIsDigit_congr (head?_replaceNumeric rest)]
            simp only [Bool.and_eq_true, beq_iff_eq, not_and] at hcond
            simpa using hcond hc
        | x :: a' =>
            have htail : a' ++ 47 :: b = replaceNumeric rest := by
              have := congrArg List.tail hab.symm
              simpa using this
            exact ih rest (by simp) a' b htail.symm

/-! ### The code pass leaves no slash followed by a run of ≥ 8 -/

theorem smallRunSlash_replaceCodeSeg : ∀ l : List Nat, SmallRunSlash (replaceCodeSeg l) := by
  refine list_length_ind ?_
  intro l ih
  match l with
  | [] =>
      intro a b hab
      rw [replaceCodeSeg_nil] at hab
      exact absurd hab (nil_no_slash a b 47)
  | c :: rest =>
      intro a b hab
      rw [replaceCodeSeg_cons] at hab
      have hdroplen : (rest.dropWhile isAlnumCode).length < (c :: rest).length := by
        have := (List.dropWhile_sublist (l := rest) isAlnumCode).length_le
        simp only [List.length_cons]
        omega
      by_cases hcond : (c == 47 && decide (8 ≤ runLen rest)) = true
      · rw [if_pos hcond] at hab
        match a with
        | [] =>
            have hb : b = 58 :: 99 :: 111 :: 100 :: 101 ::
                replaceCodeSeg (rest.dropWhile isAlnumCode) := by
              have := congrArg List.tail hab.symm
              simpa using this
            have : runLen b = 0 := by
              rw [hb]
              rfl
            omega
        | x :: a' =>
            have htail : a' ++ 47 :: b =
                [58, 99, 111, 100, 101] ++ replaceCodeSeg (rest.dropWhile isAlnumCode) := by
              have := congrArg List.tail hab.symm
              simpa using this
            obtain ⟨a'', _, ha2⟩ :=
              append_cons_split [58, 99, 111, 100, 101] a' b _ htail (by decide)
            exact ih (rest.dropWhile isAlnumCode) hdroplen a'' b ha2.symm
      · rw [if_neg hcond] at hab
        match a with
        | [] =>
            have hc : c = 47 := by
              have := congrArg List.head? hab
              simpa using this
            have hb : b = replaceCodeSeg rest := by
              have := congrArg List.tail hab.symm
              simpa using this
            rw [hb, runLen_replaceCodeSeg]
            simp only [Bool.and_eq_true, beq_iff_eq, not_and] at hcond
            have := hcond hc
            simp only [decide_eq_true_eq] at this
            omega
        | x :: a' =>
            have htail : a' ++ 47 :: b = replaceCodeSeg rest := by
              have := congrArg List.tail hab.symm
              simpa using this
            exact ih rest (by simp) a' b htail.symm

/-! ### The code pass preserves digit-freedom after slashes -/

theorem noDigitSlash_replaceCodeSeg :
    ∀ l : List Nat, NoDigitSlash l → NoDigitSlash (replaceCodeSeg l) := by
  refine @list_length_ind Nat (fun l => NoDigitSlash l → NoDigitSlash (replaceCodeSeg l)) ?_
  intro l ih hl
  match l with
  | [] =>
      intro a b hab
      rw [replaceCodeSeg_nil] at hab
      exact absurd hab (nil_no_slash a b 47)
  | c :: rest =>
      intro a b hab
      rw [replaceCodeSeg_cons] at hab
      have hdroplen : (rest.dropWhile isAlnumCode).length < (c :: rest).length := by
        have := (List.dropWhile_sublist (l := rest) isAlnumCode).length_le
        simp only [List.length_cons]
        omega
      by_cases hcond : (c == 47 && decide (8 ≤ runLen rest)) = true
      · rw [if_pos hcond] at hab
        match a with
        | [] =>
            have hb : b = 58 :: 99 :: 111 :: 100 :: 101 ::
                replaceCodeSeg (rest.dropWhile isAlnumCode) := by
              have := congrArg List.tail hab.symm
              simpa using this
            rw [hb]
            rfl
        | x :: a' =>
            have htail : a' ++ 47 :: b =
                [58, 99, 111, 100, 101] ++ replaceCodeSeg (rest.dropWhile isAlnumCode) := by
              have := congrArg List.tail hab.symm
              simpa using this
            obtain ⟨a'', _, ha2⟩ :=
              append_cons_split [58, 99, 111, 100, 101] a' b _ htail (by decide)
            exact ih (rest.dropWhile isAlnumCode) hdroplen
              (noDigitSlash_of_dropWhile (noDigitSlash_of_cons hl)) a'' b ha2.symm
      · rw [if_neg hcond] at hab
        match a with
        | [] =>
            have hc : c = 47 := by
              have := congrArg List.head? hab
              simpa using this
            have hb : b = replaceCodeSeg rest := by
              have := congrArg List.tail hab.symm
              simpa using this
            rw [hb, headIsDigit_congr (head?_replaceCodeSeg rest)]
            exact hl [] rest (by rw [hc]; rfl)
        | x :: a' =>
            have htail : a' ++ 47 :: b = replaceCodeSeg rest := by
              have := congrArg List.tail hab.symm
              simpa using this
            exact ih rest (by simp) (noDigitSlash_of_cons hl) a' b htail.symm

/-! ### A UUID match needs eight leading alphanumerics -/

theorem hexN_le_runLen : ∀ (n : Nat) (l rest : List Nat),
    hexN n l = some rest → n ≤ runLen l := by
  intro n
  induction n with
  | zero => intro l rest _; exact Nat.zero_le _
  | succ n ih =>
      intro l rest h
      match l with
      | [] => exact absurd h (by simp [hexN])
      | c :: l' =>
          rw [show hexN (n + 1) (c :: l') = if isHexCode c then hexN n l' else none
            from rfl] at h
          by_cases hc : isHexCode c = true
          · rw [if_pos hc] at h
            have hn := ih l' rest h
            have halnum := hex_imp_alnum c hc
            unfold runLen at hn ⊢
            rw [List.takeWhile_cons, if_pos halnum]
            simp only [List.length_cons]
            omega
          · rw [if_neg hc] at h
            exact absurd h (by simp)

theorem uuidMatch_runLen (l : List Nat) (h : (uuidMatch l).isSome = true) :
    8 ≤ runLen l := by
  unfold uuidMatch at h
  cases h8 : hexN 8 l with
  | none => rw [h8] at h; simp at h
  | some l1 => exact hexN_le_runLen 8 l l1 h8

/-! ### On normal forms the scans are the identity -/

theorem replaceNumeric_id : ∀ l : List Nat, NoDigitSlash l → replaceNumeric l = l := by
  refine @list_length_ind Nat (fun l => NoDigitSlash l → replaceNumeric l = l) ?_
  intro l ih h
  match l with
  | [] => rfl
  | c :: rest =>
      rw [replaceNumeric_cons]
      by_cases hcond : (c == 47 && headIsDigit rest) = true
      · exfalso
        simp only [Bool.and_eq_true, beq_iff_eq] at hcond
        have hnd := h [] rest (by rw [hcond.1]; rfl)
        rw [hnd] at hcond
        exact absurd hcond.2 (by simp)
      · rw [if_neg hcond, ih rest (by simp) (noDigitSlash_of_cons h)]

theorem replaceCodeSeg_id : ∀ l : List Nat, SmallRunSlash l → replaceCodeSeg l = l := by
  refine @list_length_ind Nat (fun l => SmallRunSlash l → replaceCodeSeg l = l) ?_
  intro l ih h
  match l with
  | [] => rfl
  | c :: rest =>
      rw [replaceCodeSeg_cons]
      by_cases hcond : (c == 47 && decide (8 ≤ runLen rest)) = true
      · exfalso
        simp only [Bool.and_eq_true, beq_iff_eq, decide_eq_true_eq] at hcond
        have hsr := h [] rest (by rw [hcond.1]; rfl)
        omega
      · rw [if_neg hcond, ih rest (by simp) (smallRunSlash_of_cons h)]

theorem replaceUuid_id : ∀ l : List Nat, SmallRunSlash l → replaceUuid l = l := by
  refine @list_length_ind Nat (fun l => SmallRunSlash l → replaceUuid l = l) ?_
  intro l ih h
  match l with
  | [] => rfl
  | c :: rest =>
      rw [replaceUuid_cons]
      by_cases hcond : (c == 47 && (uuidMatch rest).isSome) = true
      · exfalso
        simp only [Bool.and_eq_true, beq_iff_eq] at hcond
        have hsr := h [] rest (by rw [hcond.1]; rfl)
        have := uuidMatch_runLen rest hcond.2
        omega
      · rw [if_neg hcond, ih rest (by simp) (smallRunSlash_of_cons h)]

theorem map_toLower_fix : ∀ l : List Nat, (∀ c ∈ l, jsToLowerCode c = c) →
    l.map jsToLowerCode = l := by
  intro l h
  induction l with
  | nil => rfl
  | cons c rest ih =>
      rw [List.map_cons, h c (by simp), ih (fun d hd => h d (by simp [hd]))]

/-! ### The predicates transfer along toLowerCase -/

theorem headIsDigit_map (l : List Nat) :
    headIsDigit (l.map jsToLowerCode) = headIsDigit l := by
  match l with
  | [] => rfl
  | c :: rest =>
      show isDigitCode (jsToLowerCode c) = isDigitCode c
      exact isDigitCode_toLower c

theorem runLen_map (l : List Nat) : runLen (l.map jsToLowerCode) = runLen l := by
  induction l with
  | nil => rfl
  | cons c rest ih =>
      unfold runLen at ih ⊢
      rw [List.map_cons, List.takeWhile_cons, List.takeWhile_cons, isAlnumCode_toLower]
      by_cases hc : isAlnumCode c = true
      · rw [if_pos hc, if_pos hc]
        simp only [List.length_cons]
        omega
      · rw [if_neg hc, if_neg hc]

theorem noDigitSlash_map_toLower {l : List Nat} (h : NoDigitSlash l) :
    NoDigitSlash (l.map jsToLowerCode) := by
  have key : ∀ (a : List Nat) (l b : List Nat),
      l.map jsToLowerCode = a ++ 47 :: b → NoDigitSlash l → headIsDigit b = false := by
    intro a
    induction a with
    | nil =>
        intro l b hab hnd
        match l with
        | [] => exact absurd hab (by simp)
        | c :: l' =>
            rw [List.map_cons] at hab
            have hc : jsToLowerCode c = 47 := by
              have := congrArg List.head? hab
              simpa using this
            have hb : b = l'.map jsToLowerCode := by
              have := congrArg List.tail hab.symm
              simpa using this
            rw [hb, headIsDigit_map]
            exact hnd [] l' (by rw [(jsToLowerCode_eq_47 c).mp hc]; rfl)
    | cons x a' ih =>
        intro l b hab hnd
        match l with
        | [] => exact absurd hab (by simp)
        | c :: l' =>
            rw [List.map_cons] at hab
            have htail : l'.map jsToLowerCode = a' ++ 47 :: b := by
              have := congrArg List.tail hab
              simpa using this
            exact ih l' b htail (noDigitSlash_of_cons hnd)
  intro a b hab
  exact key a l b hab h

theorem smallRunSlash_map_toLower {l : List Nat} (h : SmallRunSlash l) :
    SmallRunSlash (l.map jsToLowerCode) := by
  have key : ∀ (a : List Nat) (l b : List Nat),
      l.map jsToLowerCode = a ++ 47 :: b → SmallRunSlash l → runLen b < 8 := by
    intro a
    induction a with
    | nil =>
        intro l b hab hnd
        match l with
        | [] => exact absurd hab (by simp)
        | c :: l' =>
            rw [List.map_cons] at hab
            have hc : jsToLowerCode c = 47 := by
              have := congrArg List.head? hab
              simpa using this
            have hb : b = l'.map jsToLowerCode := by
              have := congrArg List.tail hab.symm
              simpa using this
            rw [hb, runLen_map]
            exact hnd [] l' (by rw [(jsToLowerCode_eq_47 c).mp hc]; rfl)
    | cons x a' ih =>
        intro l b hab hnd
        match l with
        | [] => exact absurd hab (by simp)
        | c :: l' =>
            rw [List.map_cons] at hab
            have htail : l'.map jsToLowerCode = a' ++ 47 :: b := by
              have := congrArg List.tail hab
              simpa using this
            exact ih l' b htail (smallRunSlash_of_cons hnd)
  intro a b hab
  exact key a l b hab h

/-! ### Idempotence -/

theorem getEndpointPattern_idem (p : List Nat) :
    getEndpointPattern (getEndpointPattern p) = getEndpointPattern p := by
  by_cases hp : p.isEmpty = true
  · have h1 : getEndpointPattern p = codes "unknown" := by
      rw [getEndpointPattern, if_pos hp]
    rw [h1]
    decide
  · have h1 : getEndpointPattern p =
        (replaceCodeSeg (replaceNumeric (replaceUuid p))).map jsToLowerCode := by
      rw [getEndpointPattern, if_neg hp]
    have hXhead : (replaceCodeSeg (replaceNumeric (replaceUuid p))).head? = p.head? := by
      rw [head?_replaceCodeSeg, head?_replaceNumeric, head?_replaceUuid]
    have hpne : p ≠ [] := by
      intro h0
      rw [h0] at hp
      exact hp rfl
    have hXne : replaceCodeSeg (replaceNumeric (replaceUuid p)) ≠ [] := by
      intro h0
      rw [h0] at hXhead
      match p, hpne with
      | c :: rest, _ => exact absurd hXhead.symm (by simp)
    have hLne : ((replaceCodeSeg (replaceNumeric (replaceUuid p))).map
        jsToLowerCode).isEmpty = false := by
      match hX : replaceCodeSeg (replaceNumeric (replaceUuid p)), hXne with
      | x :: xs, _ => rfl
    have hnd : NoDigitSlash (replaceCodeSeg (replaceNumeric (replaceUuid p))) :=
      noDigitSlash_replaceCodeSeg _ (noDigitSlash_replaceNumeric _)
    have hsr : SmallRunSlash (replaceCodeSeg (replaceNumeric (replaceUuid p))) :=
      smallRunSlash_replaceCodeSeg _
    rw [h1, getEndpointPattern, if_neg (by rw [hLne]; simp)]
    rw [replaceUuid_id _ (smallRunSlash_map_toLower hsr),
      replaceNumeric_id _ (noDigitSlash_map_toLower hnd),
      replaceCodeSeg_id _ (smallRunSlash_map_toLower hsr)]
    apply map_toLower_fix
    intro c hc
    obtain ⟨d, _, rfl⟩ := List.mem_map.mp hc
    exact jsToLowerCode_idem d

/-! ### Case-insensitivity: each scan commutes with toLowerCase -/

theorem hexN_map : ∀ (n : Nat) (l : List Nat),
    hexN n (l.map jsToLowerCode) = (hexN n l).map (List.map jsToLowerCode) := by
  intro n
  induction n with
  | zero => intro l; rfl
  | succ n ih =>
      intro l
      match l with
      | [] => rfl
      | c :: l' =>
          show (if isHexCode (jsToLowerCode c) then hexN n (l'.map jsToLowerCode)
                else none) =
            (if isHexCode c then hexN n l' else none).map (List.map jsToLowerCode)
          rw [isHexCode_toLower]
          by_cases hc : isHexCode c = true
          · rw [if_pos hc, if_pos hc, ih]
          · rw [if_neg hc, if_neg hc]
            rfl

theorem dashNext_map (l : List Nat) :
    dashNext (l.map jsToLowerCode) = (dashNext l).map (List.map jsToLowerCode) := by
  match l with
  | [] => rfl
  | c :: l' =>
      show (if jsToLowerCode c = 45 then some (l'.map jsToLowerCode) else none) =
        (if c = 45 then some l' else none).map (List.map jsToLowerCode)
      by_cases hc : c = 45
      · rw [if_pos ((jsToLowerCode_eq_45 c).mpr hc), if_pos hc]
        rfl
      · rw [if_neg (fun h => hc ((jsToLowerCode_eq_45 c).mp h)), if_neg hc]
        rfl

theorem bind_map_helper (m : List Nat → List Nat) (o : Option (List Nat))
    (g : List Nat → Option (List Nat))
    (hg : ∀ x, g (m x) = (g x).map m) :
    (o.map m).bind g = (o.bind g).map m := by
  cases o with
  | none => rfl
  | some x =>
      show g (m x) = (g x).map m
      exact hg x

theorem uuidMatch_map (l : List Nat) :
    uuidMatch (l.map jsToLowerCode) = (uuidMatch l).map (List.map jsToLowerCode) := by
  unfold uuidMatch
  rw [hexN_map 8]
  refine bind_map_helper _ _ _ ?_
  intro l1
  show (dashNext (l1.map jsToLowerCode)).bind _ = _
  rw [dashNext_map]
  refine bind_map_helper _ _ _ ?_
  intro l2
  show (hexN 4 (l2.map jsToLowerCode)).bind _ = _
  rw [hexN_map 4]
  refine bind_map_helper _ _ _ ?_
  intro l3
  show (dashNext (l3.map jsToLowerCode)).bind _ = _
  rw [dashNext_map]
  refine bind_map_helper _ _ _ ?_
  intro l4
  show (hexN 4 (l4.map jsToLowerCode)).bind _ = _
  rw [hexN_map 4]
  refine bind_map_helper _ _ _ ?_
  intro l5
  show (dashNext (l5.map jsToLowerCode)).bind _ = _
  rw [dashNext_map]
  refine bind_map_helper _ _ _ ?_
  intro l6
  show (hexN 4 (l6.map jsToLowerCode)).bind _ = _
  rw [hexN_map 4]
  refine bind_map_helper _ _ _ ?_
  intro l7
  show (dashNext (l7.map jsToLowerCode)).bind _ = _
  rw [dashNext_map]
  refine bind_map_helper _ _ _ ?_
  intro l8
  exact hexN_map 12 l8

theorem beq_47_toLower (c : Nat) : (jsToLowerCode c == 47) = (c == 47) := by
  rw [Bool.eq_iff_iff]
  simp only [beq_iff_eq]
  exact jsToLowerCode_eq_47 c

theorem dropWhile_digit_map (l : List Nat) :
    (l.map jsToLowerCode).dropWhile isDigitCode =
      (l.dropWhile isDigitCode).map jsToLowerCode := by
  rw [List.dropWhile_map]
  have hfun : (isDigitCode ∘ jsToLowerCode) = isDigitCode := by
    funext c
    exact isDigitCode_toLower c
  rw [hfun]

theorem dropWhile_alnum_map (l : List Nat) :
    (l.map jsToLowerCode).dropWhile isAlnumCode =
      (l.dropWhile isAlnumCode).map jsToLowerCode := by
  rw [List.dropWhile_map]
  have hfun : (isAlnumCode ∘ jsToLowerCode) = isAlnumCode := by
    funext c
    exact isAlnumCode_toLower c
  rw [hfun]

theorem isSome_map_opt (f : List Nat → List Nat) (o : Option (List Nat)) :
    (o.map f).isSome = o.isSome := by
  cases o <;> rfl

theorem replaceNumeric_map : ∀ l : List Nat,
    replaceNumeric (l.map jsToLowerCode) = (replaceNumeric l).map jsToLowerCode := by
  refine list_length_ind ?_
  intro l ih
  match l with
  | [] => rfl
  | c :: rest =>
      rw [List.map_cons, replaceNumeric_cons, replaceNumeric_cons,
        beq_47_toLower, headIsDigit_map]
      by_cases hcond : (c == 47 && headIsDigit rest) = true
      · rw [if_pos hcond, if_pos hcond, dropWhile_digit_map,
          ih (rest.dropWhile isDigitCode)
            (by have := (List.dropWhile_sublist (l := rest) isDigitCode).length_le
                simp only [List.length_cons]
                omega)]
        rfl
      · rw [if_neg hcond, if_neg hcond, ih rest (by simp)]
        rfl

theorem replaceCodeSeg_map : ∀ l : List Nat,
    replaceCodeSeg (l.map jsToLowerCode) = (replaceCodeSeg l).map jsToLowerCode := by
  refine list_length_ind ?_
  intro l ih
  match l with
  | [] => rfl
  | c :: rest =>
      rw [List.map_cons, replaceCodeSeg_cons, replaceCodeSeg_cons,
        beq_47_toLower, runLen_map]
      by_cases hcond : (c == 47 && decide (8 ≤ runLen rest)) = true
      · rw [if_pos hcond, if_pos hcond, dropWhile_alnum_map,
          ih (rest.dropWhile isAlnumCode)
            (by have := (List.dropWhile_sublist (l := rest) isAlnumCode).length_le
                simp only [List.length_cons]
                omega)]
        rfl
      · rw [if_neg hcond, if_neg hcond, ih rest (by simp)]
        rfl

theorem replaceUuid_map : ∀ l : List Nat,
    replaceUuid (l.map jsToLowerCode) = (replaceUuid l).map jsToLowerCode := by
  refine list_length_ind ?_
  intro l ih
  match l with
  | [] => rfl
  | c :: rest =>
      rw [List.map_cons, replaceUuid_cons, replaceUuid_cons,
        beq_47_toLower, uuidMatch_map, isSome_map_opt]
      by_cases hcond : (c == 47 && (uuidMatch rest).isSome) = true
      · rw [if_pos hcond, if_pos hcond,
          show (rest.map jsToLowerCode).drop 36 = (rest.drop 36).map jsToLowerCode by
            rw [List.map_drop],
          ih (rest.drop 36)
            (by simp only [List.length_drop, List.length_cons]
                omega)]
        rfl
      · rw [if_neg hcond, if_neg hcond, ih rest (by simp)]
        rfl

/-- Case-insensitivity kernel: lowercasing the input first does not change
the normalized pattern. -/
theorem getEndpointPattern_map_toLower (p : List Nat) :
    getEndpointPattern (p.map jsToLowerCode) = getEndpointPattern p := by
  by_cases hp : p.isEmpty = true
  · have hp0 : p = [] := by
      match p, hp with
      | [], _ => rfl
    rw [hp0]
    rfl
  · have hpm : (p.map jsToLowerCode).isEmpty = true ↔ p.isEmpty = true := by
      match p with
      | [] => simp
      | c :: rest => simp
    rw [getEndpointPattern, if_neg (fun h => hp (hpm.mp h)),
      getEndpointPattern, if_neg hp]
    rw [replaceUuid_map, replaceNumeric_map, replaceCodeSeg_map]
    rw [List.map_map]
    apply List.map_congr_left
    intro c _
    exact jsToLowerCode_idem c

/-- C6: endpoint-pattern normalization maps
`/screens/3fa85f64-5717-4562-b3fc-2c963f66afa6` to `/screens/:id`,
`/media/42` to `/media/:id` and `/player/ABCD1234` to `/player/:code`; it is
idempotent on every input path, and case-insensitive: two paths that agree
after lowercasing normalize to the same result. -/
theorem endpoint_pattern_normalization :
    getEndpointPattern (codes "/screens/3fa85f64-5717-4562-b3fc-2c963f66afa6") =
      codes "/screens/:id" ∧
    getEndpointPattern (codes "/media/42") = codes "/media/:id" ∧
    getEndpointPattern (codes "/player/ABCD1234") = codes "/player/:code" ∧
    (∀ p : List Nat, getEndpointPattern (getEndpointPattern p) = getEndpointPattern p) ∧
    (∀ p q : List Nat, p.map jsToLowerCode = q.map jsToLowerCode →
      getEndpointPattern p = getEndpointPattern q) := by
  refine ⟨by decide, by decide, by decide, getEndpointPattern_idem, ?_⟩
  intro p q h
  rw [← getEndpointPattern_map_toLower p, h, getEndpointPattern_map_toLower q]

/-- Witness for C6's case-insensitivity conjunct at two concrete paths
differing only in letter case. -/
theorem endpoint_pattern_normalization_witness :
    getEndpointPattern (codes "/PLAYER/x") = getEndpointPattern (codes "/player/X") :=
  endpoint_pattern_normalization.2.2.2.2 (codes "/PLAYER/x") (codes "/player/X")
    (by decide)

end MediaBoard
